import Mathlib

/-!
# Verification of the CarbonExplorer data-preparation pipeline

Shallow embedding of `src/download_and_process.py` (record loader
`prepareEIAData`, range extractor `extractBARange`, carbon aggregator
`calculateAVGCarbonIntensity`) together with proofs about the embedded
functions.

Modelling conventions, chosen to mirror the pandas code:

* A pandas `Timestamp` is a `PTimestamp`: a UTC instant measured in whole
  hours since the epoch (the source data is hourly, series suffix `.H`;
  2020-01-01 00:00 UTC is hour `24 * 18262 = 438288`), together with an
  `aware` flag recording whether the value carries timezone information.
  `tz_localize UTC` on a naive timestamp reinterprets its wall clock as UTC,
  so it keeps the instant and sets the flag; `tz_convert UTC` keeps both.
* Calendar-day strings such as `"2020-01-01"` are day numbers since the
  epoch (2020-01-01 is day 18262); `pd.Timestamp(day + "T00Z")` is hour
  `24 * day`.
* Numeric generation values are `ℚ`.  Float division `a / b` is modelled by
  `nanDiv`, whose `none` result stands for the non-finite float produced
  when `b = 0` (`NaN` here, because in the aggregator the numerator is also
  zero whenever the denominator is).
* `print` diagnostics in the source (the range-mismatch warnings, progress
  messages) have no effect on any returned value and are not modelled.
* Python exceptions are `Except.error`: `pandas.reindex` raises on an index
  with duplicate labels, and `m.group(1)` raises `AttributeError` when
  `re.search` returned `None`.
-/

/-- A pandas timestamp: a UTC instant in hours since the epoch plus a flag
telling whether the value is timezone-aware.  For a naive timestamp the
stored instant is its wall-clock time read as UTC, which is exactly what
`tz_localize('UTC')` makes of it. -/
structure PTimestamp where
  instant : ℤ
  aware : Bool
deriving DecidableEq, Repr

/-- Model of `normalize_to_utc`: a naive timestamp is localized to UTC
(same instant, now aware); an aware one is converted to UTC (same instant). -/
def normalize_to_utc (t : PTimestamp) : PTimestamp :=
  if t.aware = false then { instant := t.instant, aware := true }
  else { instant := t.instant, aware := true }

/-- The UTC instant used for every comparison and for indexing, i.e. the
instant of the normalized timestamp (`pd.to_datetime(..., utc=True)` and the
comparisons in `extractBARange` all go through this). -/
def tsKey (t : PTimestamp) : ℤ :=
  (normalize_to_utc t).instant

/-- One line of `EBA.txt`: a series id, declared `start`/`end` bounds and the
list of `(timestamp, value)` pairs (source fields `series_id`, `start`,
`end`, `data`; `end` is renamed `endT` because `end` is a Lean keyword). -/
structure EIARecord where
  series_id : String
  start : PTimestamp
  endT : PTimestamp
  data : List (PTimestamp × ℚ)
deriving DecidableEq, Repr

/-- The fixed closed enumeration of fuel types. -/
inductive Fuel
  | WND
  | SUN
  | WAT
  | OIL
  | NG
  | COL
  | NUC
  | OTH
deriving DecidableEq, Repr

/-- Model of `ng_list`: the fuel types in the order the source lists them. -/
def ng_list : List Fuel :=
  [Fuel.WND, Fuel.SUN, Fuel.WAT, Fuel.OIL, Fuel.NG, Fuel.COL, Fuel.NUC, Fuel.OTH]

/-- Source string code of each fuel type. -/
def fuelCode : Fuel → String
  | Fuel.WND => "WND"
  | Fuel.SUN => "SUN"
  | Fuel.WAT => "WAT"
  | Fuel.OIL => "OIL"
  | Fuel.NG => "NG"
  | Fuel.COL => "COL"
  | Fuel.NUC => "NUC"
  | Fuel.OTH => "OTH"

/-- Model of the `carbon_intensity` dict: gCO2eq/kWh per fuel type.  Python
dicts iterate in insertion order, which is the order of `ng_list`. -/
def carbon_intensity : Fuel → ℚ
  | Fuel.WND => 11
  | Fuel.SUN => 41
  | Fuel.WAT => 24
  | Fuel.OIL => 650
  | Fuel.NG => 490
  | Fuel.COL => 820
  | Fuel.NUC => 12
  | Fuel.OTH => 230

/-- The series id `'EBA.{0}-ALL.NG.{1}.H'.format(ba_idx, ng_idx)` built in
`extractBARange`. -/
def seriesId (ba : String) (f : Fuel) : String :=
  "EBA." ++ ba ++ "-ALL.NG." ++ fuelCode f ++ ".H"

/-- A pandas `DataFrame` as assembled by `extractBARange`: the hourly UTC
index and one row per index entry, each row holding the eight fuel values in
`ng_list` column order. -/
structure DataFrame where
  index : List ℤ
  rows : List (List ℚ)
deriving DecidableEq, Repr

/-- The single-column series returned by `calculateAVGCarbonIntensity`:
same index as the input table, one optional value per row (`none` models the
`NaN` float produced by `0 / 0`), and the column name set by `rename`. -/
structure CISeries where
  index : List ℤ
  values : List (Option ℚ)
  name : String
deriving DecidableEq, Repr

/-- Float division as used by `Series.div`: `none` stands for the
non-finite float result on a zero divisor (in the aggregator the numerator
is then also zero, so the float is `NaN`). -/
def nanDiv (a b : ℚ) : Option ℚ :=
  if b = 0 then none else some (a / b)

/-- Model of `pd.date_range(start_day, end_day, freq="H", tz='UTC')`: every
hour from `start_day` 00:00 UTC to `end_day` 00:00 UTC inclusive, ascending;
empty when `start_day > end_day`. -/
def hourlyIndex (d0 d1 : ℤ) : List ℤ :=
  if d0 ≤ d1 then
    (List.range ((24 * (d1 - d0)).toNat + 1)).map (fun k : ℕ => 24 * d0 + (k : ℤ))
  else []

/-- Stable insertion of one element into a list sorted by `le`. -/
def insertLe (le : α → α → Bool) (x : α) : List α → List α
  | [] => [x]
  | y :: ys => if le x y then x :: y :: ys else y :: insertLe le x ys

/-- Stable sort by `le`; models `df.sort_values(by=['timestamp'],
ascending=True)`.  The keys the extractor sorts by are pairwise distinct
whenever the subsequent `reindex` succeeds, so any correct sort gives the
same result as pandas' quicksort there. -/
def sortLe (le : α → α → Bool) : List α → List α
  | [] => []
  | x :: xs => insertLe le x (sortLe le xs)

/-- One iteration of the fuel loop of `extractBARange`: select the records
whose `series_id` equals the requested one; with no match the column is all
zeros; otherwise filter the first record's data pairs to the requested
inclusive range (comparisons on UTC-normalized timestamps), sort by
timestamp, set the UTC timestamp as index and reindex onto `idx` filling
missing hours with `0`.  `reindex` raises when the filtered index has
duplicate labels; that is the `Except.error` branch. -/
def extractColumn (recs : List EIARecord) (sid : String) (start_idx end_idx : ℤ)
    (idx : List ℤ) : Except String (List ℚ) :=
  match recs.filter (fun r => r.series_id == sid) with
  | [] => Except.ok (List.replicate idx.length 0)
  | r :: _ =>
    let tf := r.data.filter
      (fun p => decide (start_idx ≤ tsKey p.1) && decide (tsKey p.1 ≤ end_idx))
    let keyed := (sortLe (fun a b => decide (tsKey a.1 ≤ tsKey b.1)) tf).map
      (fun p => (tsKey p.1, p.2))
    if (keyed.map Prod.fst).Nodup then
      Except.ok (idx.map (fun t =>
        (((keyed.find? (fun p => decide (p.1 = t))).map Prod.snd).getD 0)))
    else Except.error "cannot reindex on an axis with duplicate labels"

/-- The fuel loop of `extractBARange`: one column per fuel type, in
`ng_list` order; a raised exception aborts the whole call. -/
def buildCols (recs : List EIARecord) (ba : String) (start_idx end_idx : ℤ)
    (idx : List ℤ) : List Fuel → Except String (List (List ℚ))
  | [] => Except.ok []
  | f :: fs => do
    let c ← extractColumn recs (seriesId ba f) start_idx end_idx idx
    let cs ← buildCols recs ba start_idx end_idx idx fs
    Except.ok (c :: cs)

/-- Model of `extractBARange(ba_idx, start_day, end_day)` over the loaded
record set `recs`: builds the hourly UTC index, one column per fuel type,
then `np.array(...).transpose()` turns the 8 equal-length columns into one
row per index entry and `set_index(idx)` attaches the index. -/
def extractBARange (recs : List EIARecord) (ba : String) (d0 d1 : ℤ) :
    Except String DataFrame := do
  let start_idx := 24 * d0
  let end_idx := 24 * d1
  let idx := hourlyIndex d0 d1
  let cols ← buildCols recs ba start_idx end_idx idx ng_list
  Except.ok
    { index := idx
      rows := (List.range idx.length).map (fun i => cols.map (fun c => c.getD i 0)) }

/-- Clipping of one float cell by the mask assignment `db[db < 0] = 0`. -/
def clip (x : ℚ) : ℚ :=
  if x < 0 then 0 else x

/-- Clipping of one row. -/
def clipRow (r : List ℚ) : List ℚ :=
  r.map clip

/-- The state of the caller's table after `db[db < 0] = 0`: every negative
cell set to zero in place, index untouched. -/
def clipDF (db : DataFrame) : DataFrame :=
  { index := db.index, rows := db.rows.map clipRow }

/-- The loop `for c in carbon_intensity: tot_carbon += carbon_intensity[c] *
db[c]`, per row: the dict iterates in insertion order, which matches the
`ng_list` column order of the rows. -/
def rowWeighted (r : List ℚ) : ℚ :=
  (ng_list.zip r).foldl (fun acc p => acc + carbon_intensity p.1 * p.2) 0

/-- Model of `calculateAVGCarbonIntensity(db)`.  The first component is the
returned series (`tot_carbon.div(sum_db)`, renamed `carbon_intensity`); the
second is the caller's table after the call, because `db[db < 0] = 0`
mutates the argument in place before anything is summed. -/
def calculateAVGCarbonIntensity (db : DataFrame) : CISeries × DataFrame :=
  let db2 := clipDF db
  ({ index := db.index
     values := db2.rows.map (fun r => nanDiv (rowWeighted r) r.sum)
     name := "carbon_intensity" },
   db2)

/-- Cell `(i, j)` of a table: row `i`, column `j` in `ng_list` order. -/
def cellOf (db : DataFrame) (i j : ℕ) : Option ℚ :=
  (db.rows.get? i).bind (fun r => r.get? j)

/-- Position of a fuel's column in the assembled table. -/
def colIdx (f : Fuel) : ℕ :=
  ng_list.indexOf f

/-- Whether a character is matched by the regex wildcard `.` (anything but a
newline; `re.DOTALL` is not set). -/
def anyCh (c : Char) : Bool :=
  c ≠ '\n'

/-- The lazy part `(.+?)-` of the pattern `EBA.(.+?)-`, tried at a fixed
position: consume the fewest possible (at least one) wildcard characters
such that the next character is a literal `-`; the consumed characters are
group 1. -/
def lazyGrp : List Char → Option (List Char)
  | [] => none
  | [_] => none
  | c :: d :: rest =>
    if anyCh c then
      if d = '-' then some [c]
      else (lazyGrp (d :: rest)).map (fun g => c :: g)
    else none

/-- The pattern `EBA.(.+?)-` anchored at the head of the list: literal
`EBA`, one wildcard character, then the lazy group. -/
def matchBAAt : List Char → Option (List Char)
  | 'E' :: 'B' :: 'A' :: c :: rest => if anyCh c then lazyGrp rest else none
  | _ => none

/-- Model of `re.search("EBA.(.+?)-", sid)` followed by `.group(1)`:
`re.search` scans for the leftmost position where the pattern matches. -/
def searchBA : List Char → Option (List Char)
  | [] => none
  | c :: rest =>
    match matchBAAt (c :: rest) with
    | some g => some g
    | none => searchBA rest

/-- The character class `[A-Z\-]` of the CISO sub-series pattern. -/
def cls1 (c : Char) : Bool :=
  (decide ('A' ≤ c) && decide (c ≤ 'Z')) || decide (c = '-')

/-- The character class `[A-Z\.\-]` of the CISO sub-series pattern. -/
def cls2 (c : Char) : Bool :=
  cls1 c || decide (c = '.')

/-- The pattern `EBA.CISO-([A-Z\-]+\.)([A-Z\.\-]*)` anchored at the head of
the list: literal `EBA`, one wildcard, literal `CISO-`, then group 1 is a
greedy nonempty `[A-Z\-]` run followed by a literal `.` (the run cannot
contain `.`, so backtracking inside it never helps) and group 2 is the
greedy, possibly empty `[A-Z\.\-]` run after that dot. -/
def matchCISOAt : List Char → Option (List Char)
  | 'E' :: 'B' :: 'A' :: c :: 'C' :: 'I' :: 'S' :: 'O' :: '-' :: rest =>
    if anyCh c then
      let run := rest.takeWhile cls1
      if run.isEmpty then none
      else
        match rest.drop run.length with
        | '.' :: tail => some (tail.takeWhile cls2)
        | _ => none
    else none
  | _ => none

/-- Model of `re.search("EBA.CISO-([A-Z\\-]+\\.)([A-Z\\.\\-]*)", sid)`
followed by `.group(2)`: leftmost matching position. -/
def searchCISO : List Char → Option (List Char)
  | [] => none
  | c :: rest =>
    match matchCISOAt (c :: rest) with
    | some g => some g
    | none => searchCISO rest

/-- Append a value to an accumulator unless it is already present: the step
both `unique()` and the `if ba_this not in ba_list` loop take per element. -/
def dedupAppend [DecidableEq α] (acc : List α) (x : α) : List α :=
  if x ∈ acc then acc else acc ++ [x]

/-- Model of `pd.Series.unique()` on the string series ids: each distinct
value once, in order of first appearance. -/
def uniqueFirst [DecidableEq α] (l : List α) : List α :=
  l.foldl dedupAppend []

/-- One iteration of the catalog loop of `prepareEIAData` for series id
`sid`, acting on the pair `(ba_list, ts_list)`: `m.group(1)` on a failed
search raises `AttributeError`; the BA is appended if unseen; for BA `CISO`
the second pattern's group 2 is appended to `ts_list` unconditionally. -/
def catalogStep (acc : List String × List String) (sid : String) :
    Except String (List String × List String) :=
  match searchBA sid.toList with
  | none => Except.error "AttributeError: NoneType has no group"
  | some g =>
    let ba := String.mk g
    let bas := dedupAppend acc.1 ba
    if ba = "CISO" then
      match searchCISO sid.toList with
      | none => Except.error "AttributeError: NoneType has no group"
      | some g2 => Except.ok (bas, acc.2 ++ [String.mk g2])
    else Except.ok (bas, acc.2)

/-- Model of the catalog-building part of `prepareEIAData`: `sids` is the
file's `series_id` column restricted to string values, in line order (the
source drops non-string ids before this loop); `unique()` dedups it, then
the loop builds `(ba_list, ts_list)` starting from the empty globals. -/
def prepareEIAData (sids : List String) :
    Except String (List String × List String) :=
  (uniqueFirst sids).foldlM catalogStep ([], [])

/-- Written from the spec's words, for comparison with the source: the
substring of a series id strictly between the literal leading `EBA.` and
the next `-`, when the id has that shape. -/
def specExtractBA (sid : String) : Option String :=
  match sid.toList with
  | 'E' :: 'B' :: 'A' :: '.' :: rest =>
    if rest.contains '-' then
      some (String.mk (rest.takeWhile (fun c => c ≠ '-')))
    else none
  | _ => none

/-- Written from the spec's words: the BA catalog as the spec describes it,
each distinct extracted value once, in first-seen order. -/
def specBACatalog (sids : List String) : List String :=
  uniqueFirst (sids.filterMap specExtractBA)

deriving instance DecidableEq for Except

/-- The group-2 value `prepareEIAData` appends to `ts_list` for one series
id, as an `Option`: `none` when the id's BA is not `CISO` (no append) and
when the searches fail (in the loop itself that raises instead). -/
def tsOf (sid : String) : Option String :=
  match searchBA sid.toList with
  | some g =>
    if String.mk g = "CISO" then (searchCISO sid.toList).map String.mk else none
  | none => none

/-- Group 1 of the BA search, defaulting to the empty string; total version
used to state what the catalog loop accumulates. -/
def baOf (sid : String) : String :=
  String.mk ((searchBA sid.toList).getD [])

/-- A timestamp with the same instant, marked timezone-aware (the UTC
labelled counterpart of a naive timestamp). -/
def awareT (t : PTimestamp) : PTimestamp :=
  { instant := t.instant, aware := true }

/-- A record with every timestamp (bounds and data) labelled as UTC. -/
def awareRec (r : EIARecord) : EIARecord :=
  { series_id := r.series_id
    start := awareT r.start
    endT := awareT r.endT
    data := r.data.map (fun p => (awareT p.1, p.2)) }

/-- The values `unique()` (and the `ba_list` loop) appends while scanning a
list with the already-seen prefix `seen`: the first occurrence of each value
not in `seen`, in encounter order. -/
def newElems [DecidableEq α] (seen : List α) : List α → List α
  | [] => []
  | x :: l => if x ∈ seen then newElems seen l else x :: newElems (seen ++ [x]) l

/-- The record of the end-to-end example of the spec: series
`EBA.TEST-ALL.NG.NUC.H`, bounds covering 2020-01-01 through 2020-01-03
(hours 438288 to 438336), hourly data pairs all equal to 100. -/
def recNUC100 : EIARecord :=
  { series_id := "EBA.TEST-ALL.NG.NUC.H"
    start := { instant := 438288, aware := true }
    endT := { instant := 438336, aware := true }
    data := (List.range 49).map
      (fun k : ℕ => ({ instant := 438288 + (k : ℤ), aware := false }, (100 : ℚ))) }

/-- The table the end-to-end example must produce: 25 hourly rows from
2020-01-01 00:00 UTC to 2020-01-02 00:00 UTC, NUC column constant 100,
every other column zero. -/
def dfTest : DataFrame :=
  { index := (List.range 25).map (fun k : ℕ => 438288 + (k : ℤ))
    rows := List.replicate 25 [0, 0, 0, 0, 0, 0, 100, 0] }

/-- A record whose two data points carry the same UTC instant (one naive,
one aware): after normalization the index `reindex` works on has duplicate
labels. -/
def dupRec : EIARecord :=
  { series_id := "EBA.TEST-ALL.NG.NUC.H"
    start := { instant := 0, aware := false }
    endT := { instant := 0, aware := false }
    data := [({ instant := 0, aware := false }, 1), ({ instant := 0, aware := true }, 2)] }

/-- C2: with exactly one loaded record `EBA.TEST-ALL.NG.NUC.H` covering
2020-01-01 through 2020-01-03 whose hourly values are all 100, extraction
for BA `TEST` over 2020-01-01 to 2020-01-02 yields the 25-row table with
NUC constant 100 and the other seven columns zero, and the carbon intensity
of that table is 12 gCO2eq/kWh in every row. -/
theorem extract_test_end_to_end :
    extractBARange [recNUC100] "TEST" 18262 18263 = Except.ok dfTest ∧
    calculateAVGCarbonIntensity dfTest =
      ({ index := dfTest.index
         values := List.replicate 25 (some 12)
         name := "carbon_intensity" }, dfTest) := by
  constructor
  · decide
  · have hrow : clipRow [0, 0, 0, 0, 0, 0, 100, 0] = [0, 0, 0, 0, 0, 0, 100, 0] := by
      decide
    have h1 : rowWeighted [0, 0, 0, 0, 0, 0, 100, 0] = 1200 := by
      norm_num [rowWeighted, ng_list, carbon_intensity]
    have hval : nanDiv (rowWeighted [0, 0, 0, 0, 0, 0, 100, 0]) 100 = some 12 := by
      rw [h1]; norm_num [nanDiv]
    simp [calculateAVGCarbonIntensity, clipDF, dfTest, List.map_replicate, hrow, hval]

/-- C10: a loaded line whose `series_id` contains no `-` after `EBA.` (here
`EBA.FOO`) makes `prepareEIAData` raise while building the BA catalog
(`m.group(1)` on a failed search), instead of skipping the record. -/
theorem loader_fails_without_dash :
    ("EBA.FOO".toList.contains '-') = false ∧
    prepareEIAData ["EBA.FOO"] =
      Except.error "AttributeError: NoneType has no group" := by decide

/-- C1 counterexample: for the record set `[dupRec]` (two data points at
the same UTC instant), BA `TEST` and the range `0 ≤ 0`, `extractBARange`
raises out of `reindex` instead of returning the 1-row, 8-column table the
claim promises for every record set. -/
theorem extract_range_shape_cex :
    (0 : ℤ) ≤ 0 ∧
    extractBARange [dupRec] "TEST" 0 0 =
      Except.error "cannot reindex on an axis with duplicate labels" := by decide

/-- C5 counterexample: no loaded record matches the WND series of BA
`TEST`, yet `extractBARange` still fails (the NUC record carries duplicate
instants), so "does not fail" does not hold for every record set. -/
theorem missing_series_zero_column_cex :
    dupRec.series_id ≠ seriesId "TEST" Fuel.WND ∧
    extractBARange [dupRec] "TEST" 0 0 =
      Except.error "cannot reindex on an axis with duplicate labels" := by decide

/-- C6 counterexample: for the file whose single series id is `EBAXQ-Z`
(which does not start with the literal `EBA.`), the loader's unanchored
regex with a wildcard dot still extracts `Q`, while the catalog the claim
describes (substring after a literal leading `EBA.`) is empty. -/
theorem ba_catalog_matches_spec_cex :
    prepareEIAData ["EBAXQ-Z"] = Except.ok (["Q"], []) ∧
    specBACatalog ["EBAXQ-Z"] = [] ∧
    (["Q"] : List String) ≠ [] := by decide

/-- C7 counterexample: two distinct CISO series ids with the same group-2
segment make the loader append that segment twice, so the sub-series
catalog does not contain each distinct value exactly once. -/
theorem ts_catalog_one_per_id_cex :
    ("EBA.CISO-ALL.NG.SUN.H" : String) ≠ "EBA.CISO-XXX.NG.SUN.H" ∧
    prepareEIAData ["EBA.CISO-ALL.NG.SUN.H", "EBA.CISO-XXX.NG.SUN.H"] =
      Except.ok (["CISO"], ["NG.SUN.H", "NG.SUN.H"]) ∧
    (["NG.SUN.H", "NG.SUN.H"] : List String).count "NG.SUN.H" = 2 := by decide

theorem clip_of_nonneg {x : ℚ} (h : 0 ≤ x) : clip x = x := by
  simp [clip]
  intro hlt
  exact absurd h (not_le.mpr hlt)

theorem clip_of_nonpos {x : ℚ} (h : x ≤ 0) : clip x = 0 := by
  rcases lt_or_eq_of_le h with h1 | h1
  · simp [clip, h1]
  · simp [clip, h1]

theorem clipRow_sum_eq_zero {r : List ℚ} (h : ∀ x ∈ r, x ≤ 0) :
    (clipRow r).sum = 0 := by
  induction r with
  | nil => simp [clipRow]
  | cons x xs ih =>
    have hx : clip x = 0 := clip_of_nonpos (h x (by simp))
    simp [clipRow] at ih ⊢
    rw [hx, ih (fun y hy => h y (by simp [hy]))]
    simp

theorem set_of_getElem? {l : List α} {j : ℕ} {a : α} (h : l[j]? = some a) :
    l.set j a = l := by
  induction l generalizing j with
  | nil => simp at h
  | cons x xs ih =>
    cases j with
    | zero => simp_all
    | succ n =>
      simp at h
      simp [ih h]

theorem clipRow_set_zero {r : List ℚ} {j : ℕ} {v : ℚ}
    (hv : r[j]? = some v) (hneg : v < 0) : clipRow (r.set j 0) = clipRow r := by
  have h1 : clipRow (r.set j 0) = (clipRow r).set j (clip 0) := by
    simp [clipRow, List.map_set]
  have h2 : clip 0 = 0 := by simp [clip]
  have h3 : (clipRow r)[j]? = some 0 := by
    simp [clipRow, hv, clip_of_nonpos (le_of_lt hneg)]
  rw [h1, h2, set_of_getElem? h3]

/-- C3: a row whose eight fuel values are all nonpositive has zero total
generation after clipping, and the carbon-intensity value of that row is
the division-by-zero sentinel (the `NaN` float, `none` here); the
aggregator never raises (it is a total function in the model, matching the
exception-free numeric path of the source). -/
theorem carbon_nan_on_nonpositive_row (db : DataFrame) (i : ℕ) (r : List ℚ)
    (hr : db.rows[i]? = some r) (hlen : r.length = 8) (hneg : ∀ x ∈ r, x ≤ 0) :
    (calculateAVGCarbonIntensity db).1.values[i]? = some none := by
  have hsum : (clipRow r).sum = 0 := clipRow_sum_eq_zero hneg
  simp [calculateAVGCarbonIntensity, clipDF, hr, hsum, nanDiv]

/-- C3 witness: the all-zero row of an otherwise arbitrary table gets the
sentinel. -/
theorem carbon_nan_on_nonpositive_row_witness :
    (calculateAVGCarbonIntensity
      { index := [0], rows := [[0, 0, 0, 0, 0, 0, 0, 0]] }).1.values[0]? = some none :=
  carbon_nan_on_nonpositive_row
    { index := [0], rows := [[0, 0, 0, 0, 0, 0, 0, 0]] } 0
    [0, 0, 0, 0, 0, 0, 0, 0] (by decide) (by decide) (by decide)

/-- C4: a negative entry in a row that also has a positive entry is treated
as zero: the carbon-intensity series of the table equals the series of the
same table with that entry replaced by 0. -/
theorem carbon_clips_negative_input (db : DataFrame) (i j : ℕ) (r : List ℚ) (v : ℚ)
    (hr : db.rows[i]? = some r) (hv : r[j]? = some v) (hneg : v < 0)
    (hpos : ∃ (k : ℕ) (w : ℚ), r[k]? = some w ∧ 0 < w) :
    (calculateAVGCarbonIntensity db).1 =
      (calculateAVGCarbonIntensity
        { index := db.index, rows := db.rows.set i (r.set j 0) }).1 := by
  have hcr : clipRow (r.set j 0) = clipRow r := clipRow_set_zero hv hneg
  have hrows : (db.rows.set i (r.set j 0)).map clipRow = db.rows.map clipRow := by
    rw [List.map_set, hcr]
    exact set_of_getElem? (by simp [hr])
  simp [calculateAVGCarbonIntensity, clipDF, hrows]

/-- C4 witness: replacing the negative entry of `[-5, 3, 0, ..., 0]` by 0
leaves the carbon-intensity series unchanged. -/
theorem carbon_clips_negative_input_witness :
    (calculateAVGCarbonIntensity
      { index := [0], rows := [[-5, 3, 0, 0, 0, 0, 0, 0]] }).1 =
    (calculateAVGCarbonIntensity
      { index := [0],
        rows := [([-5, 3, 0, 0, 0, 0, 0, 0] : List ℚ)].set 0
          (([-5, 3, 0, 0, 0, 0, 0, 0] : List ℚ).set 0 0) }).1 :=
  carbon_clips_negative_input
    { index := [0], rows := [[-5, 3, 0, 0, 0, 0, 0, 0]] } 0 0
    [-5, 3, 0, 0, 0, 0, 0, 0] (-5) (by decide) (by decide) (by decide)
    ⟨1, 3, by decide, by decide⟩

/-- C9: `db[db < 0] = 0` mutates the caller's table: after the call the
second component (the post-call state of the argument) has every formerly
negative cell set to zero — in particular cell `(i, j)` — keeps the index
and all nonnegative cells unchanged, and differs from the original table. -/
theorem carbon_mutates_argument (db : DataFrame) (i j : ℕ) (r : List ℚ) (v : ℚ)
    (hr : db.rows[i]? = some r) (hv : r[j]? = some v) (hneg : v < 0) :
    (calculateAVGCarbonIntensity db).2.index = db.index ∧
    (calculateAVGCarbonIntensity db).2.rows = db.rows.map clipRow ∧
    cellOf (calculateAVGCarbonIntensity db).2 i j = some 0 ∧
    (∀ (a b : ℕ) (w : ℚ), cellOf db a b = some w → 0 ≤ w →
      cellOf (calculateAVGCarbonIntensity db).2 a b = some w) ∧
    (calculateAVGCarbonIntensity db).2 ≠ db := by
  have hcell : cellOf (calculateAVGCarbonIntensity db).2 i j = some 0 := by
    simp [calculateAVGCarbonIntensity, clipDF, cellOf, hr, clipRow, hv,
      clip_of_nonpos (le_of_lt hneg)]
  refine ⟨rfl, rfl, hcell, ?_, ?_⟩
  · intro a b w h1 h2
    rcases hra : db.rows[a]? with _ | ra
    · simp [cellOf, hra] at h1
    · simp [cellOf, hra] at h1
      simp [calculateAVGCarbonIntensity, clipDF, cellOf, hra, clipRow, h1,
        clip_of_nonneg h2]
  · intro heq
    have hv0 : cellOf db i j = some v := by simp [cellOf, hr, hv]
    rw [heq, hv0] at hcell
    have : v = 0 := by
      have h0 : (0 : ℚ) = v := by simpa using hcell.symm
      exact h0.symm
    rw [this] at hneg
    exact absurd hneg (lt_irrefl 0)

/-- C9 witness: the table with one `-5` cell is clipped in place. -/
theorem carbon_mutates_argument_witness :
    (calculateAVGCarbonIntensity
      { index := [0], rows := [[-5, 3, 0, 0, 0, 0, 0, 0]] }).2.index = [0] ∧
    (calculateAVGCarbonIntensity
      { index := [0], rows := [[-5, 3, 0, 0, 0, 0, 0, 0]] }).2.rows =
      ([[-5, 3, 0, 0, 0, 0, 0, 0]] : List (List ℚ)).map clipRow ∧
    cellOf (calculateAVGCarbonIntensity
      { index := [0], rows := [[-5, 3, 0, 0, 0, 0, 0, 0]] }).2 0 0 = some 0 ∧
    (∀ (a b : ℕ) (w : ℚ),
      cellOf { index := [0], rows := [[-5, 3, 0, 0, 0, 0, 0, 0]] } a b = some w →
      0 ≤ w →
      cellOf (calculateAVGCarbonIntensity
        { index := [0], rows := [[-5, 3, 0, 0, 0, 0, 0, 0]] }).2 a b = some w) ∧
    (calculateAVGCarbonIntensity
      { index := [0], rows := [[-5, 3, 0, 0, 0, 0, 0, 0]] }).2 ≠
      { index := [0], rows := [[-5, 3, 0, 0, 0, 0, 0, 0]] } :=
  carbon_mutates_argument
    { index := [0], rows := [[-5, 3, 0, 0, 0, 0, 0, 0]] } 0 0
    [-5, 3, 0, 0, 0, 0, 0, 0] (-5) (by decide) (by decide) (by decide)

theorem normalize_to_utc_eq (t : PTimestamp) :
    normalize_to_utc t = { instant := t.instant, aware := true } := by
  unfold normalize_to_utc
  split <;> rfl

theorem tsKey_eq (t : PTimestamp) : tsKey t = t.instant := by
  simp [tsKey, normalize_to_utc_eq]

theorem tsKey_awareT (t : PTimestamp) : tsKey (awareT t) = tsKey t := by
  simp [tsKey_eq, awareT]

theorem insertLe_map (g : α → β) (le : β → β → Bool) (le' : α → α → Bool)
    (h : ∀ a b, le (g a) (g b) = le' a b) (x : α) (l : List α) :
    insertLe le (g x) (l.map g) = (insertLe le' x l).map g := by
  induction l with
  | nil => rfl
  | cons y ys ih =>
    rw [List.map_cons]
    unfold insertLe
    rw [h x y]
    cases hxy : le' x y
    · simp [ih]
    · simp

theorem sortLe_map (g : α → β) (le : β → β → Bool) (le' : α → α → Bool)
    (h : ∀ a b, le (g a) (g b) = le' a b) (l : List α) :
    sortLe le (l.map g) = (sortLe le' l).map g := by
  induction l with
  | nil => rfl
  | cons x xs ih =>
    rw [List.map_cons]
    unfold sortLe
    rw [ih, insertLe_map g le le' h]

theorem extractColumn_awareRec (recs : List EIARecord) (sid : String)
    (s e : ℤ) (idx : List ℤ) :
    extractColumn (recs.map awareRec) sid s e idx =
      extractColumn recs sid s e idx := by
  unfold extractColumn
  have hfil : (recs.map awareRec).filter (fun r => r.series_id == sid) =
      (recs.filter (fun r => r.series_id == sid)).map awareRec := by
    rw [List.filter_map]
    rfl
  rw [hfil]
  cases hr : recs.filter (fun r => r.series_id == sid) with
  | nil => rfl
  | cons r rest =>
    rw [List.map_cons]
    have hdata : (awareRec r).data = r.data.map (fun p => (awareT p.1, p.2)) := rfl
    have htf : (awareRec r).data.filter
        (fun p => decide (s ≤ tsKey p.1) && decide (tsKey p.1 ≤ e)) =
        (r.data.filter
          (fun p => decide (s ≤ tsKey p.1) && decide (tsKey p.1 ≤ e))).map
          (fun p => (awareT p.1, p.2)) := by
      rw [hdata, List.filter_map]
      congr 1
      apply List.filter_congr
      intro p hp
      simp [tsKey_awareT]
    have hsort : sortLe (fun a b => decide (tsKey a.1 ≤ tsKey b.1))
        ((r.data.filter
          (fun p => decide (s ≤ tsKey p.1) && decide (tsKey p.1 ≤ e))).map
          (fun p => (awareT p.1, p.2))) =
        (sortLe (fun a b => decide (tsKey a.1 ≤ tsKey b.1))
          (r.data.filter
            (fun p => decide (s ≤ tsKey p.1) && decide (tsKey p.1 ≤ e)))).map
          (fun p => (awareT p.1, p.2)) := by
      apply sortLe_map
      intro a b
      simp [tsKey_awareT]
    have hkeyed : (sortLe (fun a b => decide (tsKey a.1 ≤ tsKey b.1))
          ((r.data.filter
            (fun p => decide (s ≤ tsKey p.1) && decide (tsKey p.1 ≤ e))).map
            (fun p => (awareT p.1, p.2)))).map (fun p => (tsKey p.1, p.2)) =
        (sortLe (fun a b => decide (tsKey a.1 ≤ tsKey b.1))
          (r.data.filter
            (fun p => decide (s ≤ tsKey p.1) && decide (tsKey p.1 ≤ e)))).map
          (fun p => (tsKey p.1, p.2)) := by
      rw [hsort, List.map_map]
      congr 1
      funext p
      simp [tsKey_awareT]
    simp only [htf, hkeyed]

theorem buildCols_awareRec (recs : List EIARecord) (ba : String)
    (s e : ℤ) (idx : List ℤ) (fs : List Fuel) :
    buildCols (recs.map awareRec) ba s e idx fs = buildCols recs ba s e idx fs := by
  induction fs with
  | nil => rfl
  | cons f fs ih => simp [buildCols, extractColumn_awareRec, ih]

/-- C8: labelling every timestamp of the loaded records as UTC (instead of
leaving them naive) changes nothing in `extractBARange`'s output for any BA
and range; normalization is idempotent; and a naive timestamp normalizes to
the same value as its UTC-labelled counterpart. -/
theorem extract_tz_normalization (recs : List EIARecord) (ba : String)
    (d0 d1 : ℤ) (t : PTimestamp) (n : ℤ) :
    extractBARange (recs.map awareRec) ba d0 d1 = extractBARange recs ba d0 d1 ∧
    normalize_to_utc (normalize_to_utc t) = normalize_to_utc t ∧
    normalize_to_utc { instant := n, aware := false } =
      normalize_to_utc { instant := n, aware := true } := by
  refine ⟨?_, ?_, ?_⟩
  · simp only [extractBARange, buildCols_awareRec]
  · simp [normalize_to_utc_eq]
  · simp [normalize_to_utc_eq]

theorem hourlyIndex_length {d0 d1 : ℤ} (h : d0 ≤ d1) :
    (hourlyIndex d0 d1).length = (24 * (d1 - d0)).toNat + 1 := by
  rw [hourlyIndex, if_pos h, List.length_map, List.length_range]

theorem insertLe_perm (le : α → α → Bool) (x : α) (l : List α) :
    (insertLe le x l).Perm (x :: l) := by
  induction l with
  | nil => exact List.Perm.refl _
  | cons y ys ih =>
    unfold insertLe
    cases hxy : le x y
    · simp only [Bool.false_eq_true, if_false]
      exact (ih.cons y).trans (List.Perm.swap x y ys)
    · simp only [if_true]
      exact List.Perm.refl _

theorem sortLe_perm (le : α → α → Bool) (l : List α) :
    (sortLe le l).Perm l := by
  induction l with
  | nil => exact List.Perm.refl _
  | cons x xs ih =>
    unfold sortLe
    exact (insertLe_perm le x (sortLe le xs)).trans (ih.cons x)

theorem extractColumn_ok_of_nodup (recs : List EIARecord) (sid : String)
    (s e : ℤ) (idx : List ℤ)
    (h : ∀ (r : EIARecord) (rest : List EIARecord),
      recs.filter (fun x => x.series_id == sid) = r :: rest →
      ((r.data.filter (fun p =>
          decide (s ≤ tsKey p.1) && decide (tsKey p.1 ≤ e))).map
        (fun p => tsKey p.1)).Nodup) :
    ∃ c, extractColumn recs sid s e idx = Except.ok c ∧ c.length = idx.length := by
  unfold extractColumn
  cases hr : recs.filter (fun x => x.series_id == sid) with
  | nil => exact ⟨_, rfl, by simp⟩
  | cons r rest =>
    have hnd := h r rest hr
    have hperm : (((sortLe (fun a b => decide (tsKey a.1 ≤ tsKey b.1))
          (r.data.filter (fun p =>
            decide (s ≤ tsKey p.1) && decide (tsKey p.1 ≤ e)))).map
          (fun p => (tsKey p.1, p.2))).map Prod.fst).Perm
        ((r.data.filter (fun p =>
            decide (s ≤ tsKey p.1) && decide (tsKey p.1 ≤ e))).map
          (fun p => tsKey p.1)) := by
      rw [List.map_map]
      have := (sortLe_perm (fun a b : PTimestamp × ℚ => decide (tsKey a.1 ≤ tsKey b.1))
        (r.data.filter (fun p =>
          decide (s ≤ tsKey p.1) && decide (tsKey p.1 ≤ e)))).map
        (fun p : PTimestamp × ℚ => tsKey p.1)
      exact this
    have hnd2 : (((sortLe (fun a b => decide (tsKey a.1 ≤ tsKey b.1))
          (r.data.filter (fun p =>
            decide (s ≤ tsKey p.1) && decide (tsKey p.1 ≤ e)))).map
          (fun p => (tsKey p.1, p.2))).map Prod.fst).Nodup :=
      hperm.nodup_iff.mpr hnd
    dsimp only
    rw [if_pos hnd2]
    exact ⟨_, rfl, by simp⟩

theorem buildCols_ok (recs : List EIARecord) (ba : String) (s e : ℤ)
    (idx : List ℤ) (fs : List Fuel)
    (h : ∀ f ∈ fs, ∃ c, extractColumn recs (seriesId ba f) s e idx = Except.ok c ∧
      c.length = idx.length) :
    ∃ cols, buildCols recs ba s e idx fs = Except.ok cols ∧
      cols.length = fs.length ∧ ∀ c ∈ cols, c.length = idx.length := by
  induction fs with
  | nil => exact ⟨[], rfl, rfl, by simp⟩
  | cons f fs ih =>
    obtain ⟨c, hc, hcl⟩ := h f (by simp)
    obtain ⟨cols, hcols, hlen, hall⟩ := ih (fun g hg => h g (by simp [hg]))
    refine ⟨c :: cols, ?_, by simp [hlen], ?_⟩
    · simp [buildCols, hc, hcols, bind, Except.bind]
    · intro c2 hc2
      rcases List.mem_cons.mp hc2 with h2 | h2
      · rw [h2]; exact hcl
      · exact hall c2 h2

theorem buildCols_get (recs : List EIARecord) (ba : String) (s e : ℤ)
    (idx : List ℤ) (fs : List Fuel) (cols : List (List ℚ))
    (hok : buildCols recs ba s e idx fs = Except.ok cols) (k : ℕ) (f : Fuel)
    (hf : fs[k]? = some f) :
    ∃ c, cols[k]? = some c ∧
      extractColumn recs (seriesId ba f) s e idx = Except.ok c := by
  induction fs generalizing cols k with
  | nil => simp at hf
  | cons f0 fs ih =>
    cases hc : extractColumn recs (seriesId ba f0) s e idx with
    | error m => simp [buildCols, hc, bind, Except.bind] at hok
    | ok c0 =>
      cases hcs : buildCols recs ba s e idx fs with
      | error m => simp [buildCols, hc, hcs, bind, Except.bind] at hok
      | ok cs =>
        have hcols : cols = c0 :: cs := by
          simp [buildCols, hc, hcs, bind, Except.bind] at hok
          exact hok.symm
        subst hcols
        cases k with
        | zero =>
          simp at hf
          subst hf
          exact ⟨c0, by simp, hc⟩
        | succ n =>
          simp only [List.getElem?_cons_succ] at hf ⊢
          exact ih cs hcs n hf

theorem extractBARange_ok_elim (recs : List EIARecord) (ba : String)
    (d0 d1 : ℤ) (df : DataFrame)
    (hok : extractBARange recs ba d0 d1 = Except.ok df) :
    ∃ cols, buildCols recs ba (24 * d0) (24 * d1) (hourlyIndex d0 d1) ng_list =
        Except.ok cols ∧
      df = { index := hourlyIndex d0 d1
             rows := (List.range (hourlyIndex d0 d1).length).map
               (fun i => cols.map (fun c => c.getD i 0)) } := by
  simp only [extractBARange] at hok
  cases hcols : buildCols recs ba (24 * d0) (24 * d1) (hourlyIndex d0 d1) ng_list with
  | error m =>
    rw [hcols] at hok
    simp only [bind, Except.bind] at hok
    exact Except.noConfusion hok
  | ok cols =>
    rw [hcols] at hok
    simp only [bind, Except.bind, Except.ok.injEq] at hok
    exact ⟨cols, rfl, hok.symm⟩

theorem getD_replicate_zero (n i : ℕ) : (List.replicate n (0 : ℚ)).getD i 0 = 0 := by
  rw [List.getD_eq_getElem?_getD, List.getElem?_replicate]
  split <;> rfl

/-- C1 (amended): for every record set, BA and day pair with
`start_day ≤ end_day`, provided the in-range data points of each fuel's
matching record carry pairwise distinct UTC instants (otherwise pandas'
`reindex` raises, see the counterexample), `extractBARange` returns a table
with exactly `hours(start_day, end_day) + 1` rows and exactly 8 columns. -/
theorem extract_range_shape (recs : List EIARecord) (ba : String) (d0 d1 : ℤ)
    (hle : d0 ≤ d1)
    (hnodup : ∀ (f : Fuel) (r : EIARecord) (rest : List EIARecord),
      recs.filter (fun x => x.series_id == seriesId ba f) = r :: rest →
      ((r.data.filter (fun p =>
          decide (24 * d0 ≤ tsKey p.1) && decide (tsKey p.1 ≤ 24 * d1))).map
        (fun p => tsKey p.1)).Nodup) :
    ∃ df, extractBARange recs ba d0 d1 = Except.ok df ∧
      df.rows.length = (24 * (d1 - d0)).toNat + 1 ∧
      ∀ row ∈ df.rows, row.length = 8 := by
  have hcol : ∀ f ∈ ng_list, ∃ c,
      extractColumn recs (seriesId ba f) (24 * d0) (24 * d1)
        (hourlyIndex d0 d1) = Except.ok c ∧
      c.length = (hourlyIndex d0 d1).length :=
    fun f _ => extractColumn_ok_of_nodup recs (seriesId ba f) _ _ _ (hnodup f)
  obtain ⟨cols, hcols, hclen, _⟩ :=
    buildCols_ok recs ba (24 * d0) (24 * d1) (hourlyIndex d0 d1) ng_list hcol
  refine ⟨{ index := hourlyIndex d0 d1
            rows := (List.range (hourlyIndex d0 d1).length).map
              (fun i => cols.map (fun c => c.getD i 0)) }, ?_, ?_, ?_⟩
  · simp only [extractBARange]
    rw [hcols]
    rfl
  · rw [List.length_map, List.length_range, hourlyIndex_length hle]
  · intro row hrow
    obtain ⟨i, hi, hieq⟩ := List.mem_map.mp hrow
    rw [← hieq, List.length_map, hclen]
    rfl

/-- C1 witness: the empty record set over the one-day range `[0, 0]` gives
an (all-zero) 1-row, 8-column table. -/
theorem extract_range_shape_witness :
    (0 : ℤ) ≤ 0 ∧
    (∃ df, extractBARange [] "TEST" 0 0 = Except.ok df ∧
      df.rows.length = (24 * ((0 : ℤ) - 0)).toNat + 1 ∧
      ∀ row ∈ df.rows, row.length = 8) :=
  ⟨le_refl 0, extract_range_shape [] "TEST" 0 0 (le_refl 0)
    (fun f r rest h => by simp at h)⟩

/-- C5 (amended): when no loaded record carries the series id of the
requested BA/fuel pair and the extraction returns a table, that fuel's
column is zero in every row (the missing record itself never raises; a
failure can only come from another fuel's duplicate instants, see the
counterexample). -/
theorem missing_series_zero_column (recs : List EIARecord) (ba : String)
    (d0 d1 : ℤ) (f : Fuel) (df : DataFrame)
    (hmiss : ∀ r ∈ recs, r.series_id ≠ seriesId ba f)
    (hok : extractBARange recs ba d0 d1 = Except.ok df) :
    ∀ row ∈ df.rows, row[colIdx f]? = some 0 := by
  obtain ⟨cols, hcols, hdf⟩ := extractBARange_ok_elim recs ba d0 d1 df hok
  have hfil : recs.filter (fun x => x.series_id == seriesId ba f) = [] := by
    apply List.filter_eq_nil_iff.mpr
    intro r hr
    simp [hmiss r hr]
  have hng : ng_list[colIdx f]? = some f := by cases f <;> rfl
  obtain ⟨c, hcget, hcok⟩ :=
    buildCols_get recs ba (24 * d0) (24 * d1) (hourlyIndex d0 d1) ng_list cols
      hcols (colIdx f) f hng
  have hczero : c = List.replicate (hourlyIndex d0 d1).length 0 := by
    unfold extractColumn at hcok
    rw [hfil] at hcok
    dsimp only at hcok
    injection hcok with h
    exact h.symm
  subst hdf
  intro row hrow
  obtain ⟨i, hi, hieq⟩ := List.mem_map.mp hrow
  rw [← hieq, List.getElem?_map, hcget]
  simp [hczero, getD_replicate_zero]

/-- C5 witness: with no records at all, the WND series is missing and the
extracted 1-row table has 0 in the WND column. -/
theorem missing_series_zero_column_witness :
    (∀ r ∈ ([] : List EIARecord), r.series_id ≠ seriesId "TEST" Fuel.WND) ∧
    extractBARange [] "TEST" 0 0 =
      Except.ok { index := [0], rows := [[0, 0, 0, 0, 0, 0, 0, 0]] } ∧
    ∀ row ∈ ({ index := [0], rows := [[0, 0, 0, 0, 0, 0, 0, 0]] } : DataFrame).rows,
      row[colIdx Fuel.WND]? = some 0 :=
  ⟨fun r hr => by simp at hr, by decide,
    missing_series_zero_column [] "TEST" 0 0 Fuel.WND
      { index := [0], rows := [[0, 0, 0, 0, 0, 0, 0, 0]] }
      (fun r hr => by simp at hr) (by decide)⟩

theorem lazyGrp_exact (bs t : List Char) (hne : bs ≠ [])
    (hbs : ∀ c ∈ bs, c ≠ '-' ∧ anyCh c = true) :
    lazyGrp (bs ++ '-' :: t) = some bs := by
  induction bs with
  | nil => exact absurd rfl hne
  | cons x bs2 ih =>
    obtain ⟨hx1, hx2⟩ := hbs x (by simp)
    cases bs2 with
    | nil =>
      simp only [List.cons_append, List.nil_append]
      unfold lazyGrp
      rw [hx2]
      simp
    | cons y bs3 =>
      have hy : y ≠ '-' := (hbs y (by simp)).1
      have hih : lazyGrp ((y :: bs3) ++ '-' :: t) = some (y :: bs3) :=
        ih (by simp) (fun c hc => hbs c (by simp [hc]))
      simp only [List.cons_append] at hih ⊢
      unfold lazyGrp
      rw [hx2]
      simp only [if_true]
      rw [if_neg hy, hih]
      rfl

theorem mk_toList (b : String) : String.mk b.toList = b := rfl

theorem eba_append_toList (b r : String) :
    ("EBA." ++ b ++ "-" ++ r).toList =
      'E' :: 'B' :: 'A' :: '.' :: (b.toList ++ '-' :: r.toList) := by
  show (("EBA." ++ b ++ "-") ++ r).data =
    'E' :: 'B' :: 'A' :: '.' :: (b.data ++ '-' :: r.data)
  rw [String.data_append, String.data_append, String.data_append]
  show ['E', 'B', 'A', '.'] ++ b.data ++ ['-'] ++ r.data = _
  simp

theorem matchBAAt_cons (c : Char) (rest : List Char) :
    matchBAAt ('E' :: 'B' :: 'A' :: c :: rest) =
      if anyCh c = true then lazyGrp rest else none := rfl

theorem searchBA_exact (b r : String) (hne : b.toList ≠ [])
    (hb : ∀ c ∈ b.toList, c ≠ '-' ∧ anyCh c = true) :
    searchBA ("EBA." ++ b ++ "-" ++ r).toList = some b.toList := by
  rw [eba_append_toList]
  have hm : matchBAAt ('E' :: 'B' :: 'A' :: '.' :: (b.toList ++ '-' :: r.toList)) =
      some b.toList := by
    rw [matchBAAt_cons]
    rw [show anyCh '.' = true from rfl]
    simp only [if_true]
    exact lazyGrp_exact b.toList r.toList hne hb
  unfold searchBA
  rw [hm]

theorem takeWhile_no_dash (bs t : List Char) (hb : ∀ c ∈ bs, c ≠ '-') :
    (bs ++ '-' :: t).takeWhile (fun c => c ≠ '-') = bs := by
  induction bs with
  | nil => simp
  | cons x bs2 ih =>
    simp only [List.cons_append, List.takeWhile_cons]
    rw [if_pos (by simpa using hb x (by simp))]
    rw [ih (fun c hc => hb c (by simp [hc]))]

theorem specExtractBA_exact (b r : String) (hne : b.toList ≠ [])
    (hb : ∀ c ∈ b.toList, c ≠ '-') :
    specExtractBA ("EBA." ++ b ++ "-" ++ r) = some b := by
  unfold specExtractBA
  rw [eba_append_toList]
  show (if (b.toList ++ '-' :: r.toList).contains '-' = true then
      some (String.mk ((b.toList ++ '-' :: r.toList).takeWhile (fun c => c ≠ '-')))
    else none) = some b
  have hcont : (b.toList ++ '-' :: r.toList).contains '-' = true := by
    have : '-' ∈ b.toList ++ '-' :: r.toList :=
      List.mem_append_right _ (List.mem_cons_self _ _)
    simpa using this
  rw [if_pos hcont, takeWhile_no_dash b.toList r.toList hb]
  rw [mk_toList]

theorem mem_dedupAppend [DecidableEq α] {acc : List α} {a : α} (x : α)
    (h : a ∈ acc) : a ∈ dedupAppend acc x := by
  unfold dedupAppend
  split
  · exact h
  · exact List.mem_append_left _ h

theorem self_mem_dedupAppend [DecidableEq α] (acc : List α) (x : α) :
    x ∈ dedupAppend acc x := by
  unfold dedupAppend
  split
  · assumption
  · exact List.mem_append_right _ (by simp)

theorem foldl_dedupAppend_newElems [DecidableEq α] (l seen : List α) :
    l.foldl dedupAppend seen = seen ++ newElems seen l := by
  induction l generalizing seen with
  | nil => simp [newElems]
  | cons x l ih =>
    rw [List.foldl_cons]
    by_cases hx : x ∈ seen
    · rw [show dedupAppend seen x = seen by simp [dedupAppend, hx]]
      rw [ih seen]
      simp [newElems, hx]
    · rw [show dedupAppend seen x = seen ++ [x] by simp [dedupAppend, hx]]
      rw [ih (seen ++ [x])]
      simp [newElems, hx]

theorem newElems_foldl [DecidableEq α] [DecidableEq β] (e : α → β) (l : List α) :
    ∀ (seen : List α) (acc : List β), (∀ x ∈ seen, e x ∈ acc) →
    (newElems seen l).foldl (fun a x => dedupAppend a (e x)) acc =
      l.foldl (fun a x => dedupAppend a (e x)) acc := by
  induction l with
  | nil =>
    intro seen acc h
    simp [newElems]
  | cons x l ih =>
    intro seen acc h
    by_cases hx : x ∈ seen
    · rw [show newElems seen (x :: l) = newElems seen l by simp [newElems, hx]]
      rw [ih seen acc h, List.foldl_cons]
      have hstep : dedupAppend acc (e x) = acc := by
        simp [dedupAppend, h x hx]
      rw [hstep]
    · rw [show newElems seen (x :: l) = x :: newElems (seen ++ [x]) l by
        simp [newElems, hx]]
      rw [List.foldl_cons, List.foldl_cons]
      apply ih (seen ++ [x])
      intro y hy
      rcases List.mem_append.mp hy with h1 | h1
      · exact mem_dedupAppend _ (h y h1)
      · have : y = x := by simpa using h1
        rw [this]
        exact self_mem_dedupAppend _ _

theorem uniqueFirst_foldl_dedup [DecidableEq α] [DecidableEq β]
    (e : α → β) (l : List α) :
    (uniqueFirst l).foldl (fun a x => dedupAppend a (e x)) [] =
      l.foldl (fun a x => dedupAppend a (e x)) [] := by
  have h1 : uniqueFirst l = newElems [] l := by
    rw [uniqueFirst, foldl_dedupAppend_newElems]
    rfl
  rw [h1]
  exact newElems_foldl e l [] [] (by intro x hx; simp at hx)

theorem filterMap_eq_map_of_some (p : α → Option β) (g : α → β) (l : List α)
    (h : ∀ x ∈ l, p x = some (g x)) : l.filterMap p = l.map g := by
  induction l with
  | nil => rfl
  | cons x l ih =>
    rw [List.filterMap_cons, h x (by simp), List.map_cons,
      ih (fun y hy => h y (by simp [hy]))]

theorem catalog_fold_bas (l : List String) :
    ∀ (acc : List String × List String) (bas tss : List String),
      l.foldlM catalogStep acc = Except.ok (bas, tss) →
      bas = l.foldl (fun a sid => dedupAppend a (baOf sid)) acc.1 := by
  induction l with
  | nil =>
    intro acc bas tss h
    simp only [List.foldlM_nil, pure, Except.pure, Except.ok.injEq] at h
    rw [List.foldl_nil, h]
  | cons sid l ih =>
    intro acc bas tss h
    rw [List.foldlM_cons] at h
    cases hcs : catalogStep acc sid with
    | error m =>
      rw [hcs] at h
      simp [bind, Except.bind] at h
    | ok acc2 =>
      rw [hcs] at h
      simp only [bind, Except.bind] at h
      have hacc2 : acc2.1 = dedupAppend acc.1 (baOf sid) := by
        unfold catalogStep at hcs
        cases hsb : searchBA sid.toList with
        | none =>
          rw [hsb] at hcs
          exact Except.noConfusion hcs
        | some g =>
          rw [hsb] at hcs
          dsimp only at hcs
          have hba : baOf sid = String.mk g := by
            unfold baOf
            rw [hsb]
            rfl
          rw [hba]
          by_cases hciso : String.mk g = "CISO"
          · rw [if_pos hciso] at hcs
            cases hsc : searchCISO sid.toList with
            | none =>
              rw [hsc] at hcs
              exact Except.noConfusion hcs
            | some g2 =>
              rw [hsc] at hcs
              injection hcs with h2
              rw [← h2]
          · rw [if_neg hciso] at hcs
            injection hcs with h2
            rw [← h2]
      rw [List.foldl_cons, ← hacc2]
      exact ih acc2 bas tss h

theorem catalog_fold_tss (l : List String) :
    ∀ (acc : List String × List String) (bas tss : List String),
      l.foldlM catalogStep acc = Except.ok (bas, tss) →
      tss = acc.2 ++ l.filterMap tsOf := by
  induction l with
  | nil =>
    intro acc bas tss h
    simp only [List.foldlM_nil, pure, Except.pure, Except.ok.injEq] at h
    rw [List.filterMap_nil, List.append_nil, h]
  | cons sid l ih =>
    intro acc bas tss h
    rw [List.foldlM_cons] at h
    cases hcs : catalogStep acc sid with
    | error m =>
      rw [hcs] at h
      simp [bind, Except.bind] at h
    | ok acc2 =>
      rw [hcs] at h
      simp only [bind, Except.bind] at h
      have hacc2 : acc2.2 = acc.2 ++ (tsOf sid).toList := by
        unfold catalogStep at hcs
        cases hsb : searchBA sid.toList with
        | none =>
          rw [hsb] at hcs
          exact Except.noConfusion hcs
        | some g =>
          rw [hsb] at hcs
          dsimp only at hcs
          by_cases hciso : String.mk g = "CISO"
          · rw [if_pos hciso] at hcs
            cases hsc : searchCISO sid.toList with
            | none =>
              rw [hsc] at hcs
              exact Except.noConfusion hcs
            | some g2 =>
              rw [hsc] at hcs
              injection hcs with h2
              have hts : tsOf sid = some (String.mk g2) := by
                unfold tsOf
                rw [hsb]
                dsimp only
                rw [if_pos hciso, hsc]
                rfl
              rw [hts, ← h2]
              rfl
          · rw [if_neg hciso] at hcs
            injection hcs with h2
            have hts : tsOf sid = none := by
              unfold tsOf
              rw [hsb]
              dsimp only
              rw [if_neg hciso]
            rw [hts, ← h2]
            simp [Option.toList]
      have h2 := ih acc2 bas tss h
      rw [h2, hacc2, List.filterMap_cons]
      cases hts : tsOf sid
      · simp
      · simp [Option.toList]

/-- C7 (amended): the sub-series catalog holds one entry per distinct CISO
series id — the group-2 segment extracted from it — in first-seen id order,
with duplicates retained: the loop appends unconditionally, so two distinct
CISO ids with the same segment put it in the catalog twice (see the
counterexample). -/
theorem ts_catalog_one_per_id (sids bas tss : List String)
    (hok : prepareEIAData sids = Except.ok (bas, tss)) :
    tss = (uniqueFirst sids).filterMap tsOf := by
  have h := catalog_fold_tss (uniqueFirst sids) ([], []) bas tss hok
  simpa using h

/-- C7 witness: a single CISO id contributes its segment once. -/
theorem ts_catalog_one_per_id_witness :
    prepareEIAData ["EBA.CISO-ALL.NG.SUN.H"] =
      Except.ok (["CISO"], ["NG.SUN.H"]) ∧
    (["NG.SUN.H"] : List String) =
      (uniqueFirst ["EBA.CISO-ALL.NG.SUN.H"]).filterMap tsOf :=
  ⟨by decide,
    ts_catalog_one_per_id ["EBA.CISO-ALL.NG.SUN.H"] ["CISO"] ["NG.SUN.H"]
      (by decide)⟩

/-- C6 (amended): for record files whose string series ids all have the
shape `EBA.<ba>-<rest>` with `<ba>` nonempty and free of `-` and newlines
(the shape real EIA ids have), and on which the loader succeeds, the BA
catalog it returns equals the catalog described by the spec (substring
after the literal leading `EBA.`, distinct values in first-seen order).
On ids outside that shape the unanchored wildcard regex of the source
disagrees with the spec's literal-prefix description (see the
counterexample). -/
theorem ba_catalog_matches_spec (sids : List String)
    (hwf : ∀ sid ∈ sids, ∃ b r : String, sid = "EBA." ++ b ++ "-" ++ r ∧
      b.toList ≠ [] ∧ ∀ c ∈ b.toList, c ≠ '-' ∧ c ≠ '\n')
    (bas tss : List String)
    (hok : prepareEIAData sids = Except.ok (bas, tss)) :
    bas = specBACatalog sids := by
  have h1 : bas =
      (uniqueFirst sids).foldl (fun a sid => dedupAppend a (baOf sid)) [] := by
    have h := catalog_fold_bas (uniqueFirst sids) ([], []) bas tss hok
    simpa using h
  have hsome : ∀ sid ∈ sids, specExtractBA sid = some (baOf sid) := by
    intro sid hsid
    obtain ⟨b, r, hsid_eq, hne, hbc⟩ := hwf sid hsid
    have hb2 : ∀ c ∈ b.toList, c ≠ '-' ∧ anyCh c = true := by
      intro c hc
      refine ⟨(hbc c hc).1, ?_⟩
      simp [anyCh, (hbc c hc).2]
    have hsearch : searchBA sid.toList = some b.toList := by
      rw [hsid_eq]
      exact searchBA_exact b r hne hb2
    have hbaof : baOf sid = b := by
      unfold baOf
      rw [hsearch]
      exact mk_toList b
    rw [hbaof, hsid_eq]
    exact specExtractBA_exact b r hne (fun c hc => (hbc c hc).1)
  have h2 : sids.filterMap specExtractBA = sids.map baOf :=
    filterMap_eq_map_of_some specExtractBA baOf sids hsome
  have h3 : specBACatalog sids =
      sids.foldl (fun a sid => dedupAppend a (baOf sid)) [] := by
    unfold specBACatalog uniqueFirst
    rw [h2, List.foldl_map]
  rw [h1, h3]
  exact uniqueFirst_foldl_dedup baOf sids

/-- C6 witness: a well-formed file where regex and literal-prefix reading
agree. -/
theorem ba_catalog_matches_spec_witness :
    prepareEIAData ["EBA.TEST-ALL.NG.NUC.H"] = Except.ok (["TEST"], []) ∧
    (["TEST"] : List String) = specBACatalog ["EBA.TEST-ALL.NG.NUC.H"] :=
  ⟨by decide,
    ba_catalog_matches_spec ["EBA.TEST-ALL.NG.NUC.H"]
      (fun sid hsid => by
        have hs : sid = "EBA.TEST-ALL.NG.NUC.H" := by simpa using hsid
        rw [hs]
        exact ⟨"TEST", "ALL.NG.NUC.H", by decide, by decide, by decide⟩)
      ["TEST"] [] (by decide)⟩
